import Mathlib

/-!
Shallow embedding of the change-reconciliation core of `testcollab-cli`
(`src/commands/featuresync.js`): content hashing, diff-record
classification, Gherkin document extraction, per-change processing,
identity resolution and sync-payload building, together with theorems
about the behaviour of these functions.

External collaborators (the cryptographic digest, the Gherkin grammar
parser and git content lookup) are parameters of an `Env` record; all
repository logic around them is translated directly from the source.
-/

/-! ## Hashing module (featuresync.js, calculateHash, lines 390-393) -/

/-- Data string fed to the digest: `path` and `content` joined by a colon,
exactly the template literal of the source. -/
def hashData (content filePath : String) : String :=
  filePath ++ ":" ++ content

/-- Embeds `calculateHash(content, filePath)`: the SHA-1 hex digest of
`hashData`.  The digest itself is an external primitive, passed in as a
function parameter. -/
def calculateHash (digest : String → String) (content filePath : String) : String :=
  digest (hashData content filePath)

/-! ## JavaScript string primitives used by the source -/

/-- Embeds `String.prototype.startsWith` (character-level prefix test). -/
def jsStartsWith (s pre : String) : Bool :=
  pre.toList.isPrefixOf s.toList

/-- Embeds `String.prototype.endsWith` (character-level suffix test). -/
def jsEndsWith (s suf : String) : Bool :=
  suf.toList.isSuffixOf s.toList

/-- Embeds JavaScript truthiness of an optional string value: `null`,
`undefined` and the empty string are falsy. -/
def truthyStr : Option String → Bool
  | some s => decide (s ≠ "")
  | none => false

/-- Whitespace for `String.prototype.trim` and the regex class `\s`,
restricted to the ASCII whitespace characters that occur in the inputs
handled here. -/
def isWsChar (c : Char) : Bool :=
  c == ' ' || c == '\t' || c == '\n' || c == '\r' || c == '\x0b' || c == '\x0c'

/-- Embeds `String.prototype.trim`: strips whitespace from both ends. -/
def jsTrim (s : String) : String :=
  ⟨((s.toList.dropWhile isWsChar).reverse.dropWhile isWsChar).reverse⟩

/-- Splitting a character list at every occurrence of `sep`; an empty input
gives one empty piece, like `"".split(sep)` in JavaScript. -/
def splitOnChar (sep : Char) : List Char → List (List Char)
  | [] => [[]]
  | c :: rest =>
    let pieces := splitOnChar sep rest
    if c = sep then [] :: pieces
    else
      match pieces with
      | [] => [[c]]
      | piece :: more => (c :: piece) :: more

/-- Embeds `String.prototype.split` with a single-character separator. -/
def jsSplit (s : String) (sep : Char) : List String :=
  (splitOnChar sep s.toList).map (fun l => ⟨l⟩)

/-! ## Change classifier (featuresync.js, parseDiffOutput, lines 210-238)

The source matches each diff line against the regular expression
`^([AMDRC]\d*)\s+(.+?)(?:\s+(.+))?$` and classifies the captures.  The
match is embedded below with the engine's backtracking order: the status
token is a status letter followed by greedily-taken digits, `\s+` takes a
maximal whitespace run (giving characters back only when nothing else
matches), `(.+?)` is lazy and the optional second-path group is preferred
over skipping it. -/

/-- Character class `[AMDRC]` of the diff-status regex. -/
def isStatusChar (c : Char) : Bool :=
  c == 'A' || c == 'M' || c == 'D' || c == 'R' || c == 'C'

/-- Backtracking split for the regex tail `(.+?)(?:\s+(.+))?$`: returns the
first division of the input into the lazy `path1` capture and an optional
whitespace-separated `path2` capture, in the order the engine tries them. -/
def splitLazy (acc : List Char) : List Char → Option (List Char × Option (List Char))
  | [] => if acc.isEmpty then none else some (acc, none)
  | c :: rest =>
    let acc1 := acc ++ [c]
    let run := rest.takeWhile isWsChar
    let tail := rest.dropWhile isWsChar
    if run.isEmpty then
      splitLazy acc1 rest
    else if !tail.isEmpty then
      some (acc1, some tail)
    else if 2 ≤ run.length then
      -- trailing whitespace only: greedy \s+ gives one character back so
      -- that (.+) is non-empty
      some (acc1, some (run.drop (run.length - 1)))
    else
      splitLazy acc1 rest

/-- Embeds `line.match(/^([AMDRC]\d*)\s+(.+?)(?:\s+(.+))?$/)`, returning
the three captures `(status, path1, path2?)` on success. -/
def matchDiffLine (line : String) : Option (String × String × Option String) :=
  match line.toList with
  | [] => none
  | c :: cs =>
    if isStatusChar c then
      let digits := cs.takeWhile Char.isDigit
      let afterStatus := cs.dropWhile Char.isDigit
      let ws := afterStatus.takeWhile isWsChar
      let afterWs := afterStatus.dropWhile isWsChar
      if ws.isEmpty then none
      else if afterWs.isEmpty then
        -- the line ends in whitespace: \s+ must leave at least one
        -- character for the lazy (.+?) capture
        if 2 ≤ ws.length then
          some (⟨c :: digits⟩, ⟨ws.drop (ws.length - 1)⟩, none)
        else none
      else
        match splitLazy [] afterWs with
        | some (path1, path2) => some (⟨c :: digits⟩, ⟨path1⟩, path2.map (fun l => ⟨l⟩))
        | none => none
    else none

/-- One structured change record of the diff (status plus old/new path). -/
structure FileChange where
  status : String
  oldPath : Option String
  newPath : Option String
deriving DecidableEq

/-- Classification of one matched diff record (featuresync.js lines
221-227): `oldPath` for Deleted/Renamed, `newPath` for
Added/Modified/Renamed, defaulting to the single path token. -/
def classifyDiffRecord (status path1 : String) (path2 : Option String) : FileChange :=
  { status := status
    oldPath :=
      if jsStartsWith status "D" || jsStartsWith status "R" then some path1 else none
    newPath :=
      if jsStartsWith status "A" || jsStartsWith status "M" || jsStartsWith status "R" then
        some (path2.getD path1)
      else none }

/-- Filter of featuresync.js lines 230-233: a record is kept only when one
of its paths ends with the `.feature` extension. -/
def keepsFeatureFile (change : FileChange) : Bool :=
  (match change.oldPath with
   | some p => jsEndsWith p ".feature"
   | none => false)
  ||
  (match change.newPath with
   | some p => jsEndsWith p ".feature"
   | none => false)

/-- Embeds `parseDiffOutput(diffOutput)` (featuresync.js lines 210-238). -/
def parseDiffOutput (diffOutput : String) : List FileChange :=
  if jsTrim diffOutput = "" then []
  else
    (jsSplit (jsTrim diffOutput) '\n').filterMap fun line =>
      match matchDiffLine line with
      | none => none
      | some (status, path1, path2) =>
        let change := classifyDiffRecord status path1 path2
        if keepsFeatureFile change then some change else none

/-- Embeds the initial-sync branch of `featuresync` (featuresync.js lines
80-91): every tracked `.feature` file becomes an Added change with no old
path. -/
def initialSyncChanges (allFiles : String) : List FileChange :=
  ((jsSplit allFiles '\n').filter (fun file => jsEndsWith (jsTrim file) ".feature")).map
    (fun file => { status := "A", oldPath := none, newPath := some (jsTrim file) })

/-! ## Document extractor (featuresync.js, parseGherkinFile and
extractFeatureDescription, lines 288-384)

The external grammar parser is a parameter: it turns raw content into a
document that either has a feature (a name and a list of background /
scenario children whose steps are keyword-text records) or does not, or it
throws. -/

/-- Raw step of the external Gherkin AST; the parser keeps the trailing
space of the keyword (for example `"Given "`). -/
structure GStep where
  keyword : String
  text : String
deriving DecidableEq

/-- Child of a feature node in the external Gherkin AST. -/
inductive RawChild where
  | scenario (name : String) (steps : List GStep)
  | background (steps : List GStep)
deriving DecidableEq

/-- Feature node of the external Gherkin AST. -/
structure RawFeature where
  name : String
  children : List RawChild
deriving DecidableEq

/-- Scenario record produced by `parseGherkinFile`: in the source the
steps are stored as the plain strings `keyword + text`. -/
structure PScenario where
  hash : String
  title : String
  steps : List String
deriving DecidableEq

/-- Feature fields produced by `parseGherkinFile`. -/
structure ParsedFeatureInfo where
  name : String
  FeatureDescription : String
  background : Option (List String)
deriving DecidableEq

/-- Result of `parseGherkinFile` when the document has a feature. -/
structure ParsedFile where
  feature : ParsedFeatureInfo
  featureHash : String
  scenarios : List PScenario
deriving DecidableEq

/-- External collaborators of the change processor: the cryptographic
digest, the Gherkin grammar parser (erroring on a syntax error, `none` for
a document with no feature) and `git show` content lookup keyed by
revision and path. -/
structure Env where
  digest : String → String
  gparse : String → Except String (Option RawFeature)
  gitShow : String → String → Except String String

/-- Loop of `extractFeatureDescription` (featuresync.js lines 295-313):
scan trimmed lines, start collecting after a `Feature:` line, stop at the
first `Background:`/`Scenario:` line, skip blank and comment lines. -/
def edLines : List String → Bool → String → String
  | [], _, description => description
  | l :: ls, inDescription, description =>
    let line := jsTrim l
    if jsStartsWith line "Feature:" then
      edLines ls true description
    else if inDescription then
      if jsStartsWith line "Background:" || jsStartsWith line "Scenario:" then
        description
      else if line ≠ "" && !(jsStartsWith line "#") then
        edLines ls inDescription
          (if description ≠ "" then description ++ "\n" ++ line else line)
      else
        edLines ls inDescription description
    else
      edLines ls inDescription description

/-- Embeds `extractFeatureDescription(content)` (featuresync.js lines
290-316). -/
def extractFeatureDescription (content : String) : String :=
  jsTrim (edLines (jsSplit content '\n') false "")

/-- Embeds `parseGherkinFile(content, filePath)` (featuresync.js lines
321-384).  Any parser error is rethrown with the source's message prefix;
a document without a feature yields `none`. -/
def parseGherkinFile (env : Env) (content filePath : String) :
    Except String (Option ParsedFile) :=
  match env.gparse content with
  | .error e => .error ("Failed to parse Gherkin file: " ++ e)
  | .ok none => .ok none
  | .ok (some feature) =>
    let scenarios : List PScenario := feature.children.filterMap fun child =>
      match child with
      | .scenario name steps =>
        let stepsText :=
          String.intercalate "\n" (steps.map fun step => step.keyword ++ step.text)
        some { hash := calculateHash env.digest stepsText filePath
               title := name
               steps := steps.map fun step => step.keyword ++ step.text }
      | .background _ => none
    -- the loop assigns `background` on every background child: the last
    -- one encountered wins
    let background : Option (List GStep) := feature.children.foldl
      (fun acc child =>
        match child with
        | .background steps => some steps
        | .scenario _ _ => acc)
      none
    let featureDescription := extractFeatureDescription content
    let featureContent :=
      (if featureDescription ≠ "" then featureDescription ++ "\n" else "")
      ++ (match background with
          | some bgSteps =>
            String.intercalate "\n" (bgSteps.map fun step => step.keyword ++ step.text)
          | none => "")
      -- source bug kept as-is: at line 370 the scenario steps are already
      -- plain strings, so reading `.keyword` and `.text` on them gives
      -- `undefined` and each step renders as the string
      -- "undefinedundefined" inside the feature-hash input
      ++ String.intercalate "\n" (scenarios.map fun s =>
           String.intercalate "\n" (s.steps.map fun _ => "undefinedundefined"))
    .ok (some
      { feature :=
          { name := feature.name
            FeatureDescription := featureDescription
            background :=
              background.map (fun steps => steps.map fun step => step.keyword ++ step.text) }
        featureHash := calculateHash env.digest featureContent filePath
        scenarios := scenarios })

/-! ## Change processor (featuresync.js, processChange, lines 240-285) -/

/-- FileChange enriched with the extracted old/new documents. -/
structure ProcessedFeature where
  hash : String
  title : String
  description : String
  background : Option (List String)
deriving DecidableEq

/-- The record `processed` built by `processChange`; absent fields are
`none`, as in the source where they are simply never assigned. -/
structure ProcessedChange where
  status : String
  oldPath : Option String
  newPath : Option String
  oldFeatureHash : Option String := none
  oldScenarioHashes : Option (List String) := none
  oldScenarios : Option (List PScenario) := none
  feature : Option ProcessedFeature := none
  scenarios : Option (List PScenario) := none
deriving DecidableEq

/-- The `processed` record as first initialized (featuresync.js lines
244-248). -/
def processChangeBase (change : FileChange) : ProcessedChange :=
  { status := change.status, oldPath := change.oldPath, newPath := change.newPath }

/-- The old-content half of the try body (featuresync.js lines 251-263):
with a prior revision, fetch `change.oldPath || change.newPath` at that
revision and record the old feature hash and old scenario records. -/
def processOldStep (env : Env) (change : FileChange)
    (lastSyncedCommit : Option String) : Except String ProcessedChange :=
  match lastSyncedCommit with
  | none => .ok (processChangeBase change)
  | some commit =>
    match change.oldPath.orElse (fun _ => change.newPath) with
    | none => .ok (processChangeBase change)
    | some oldPathForLookup =>
      match env.gitShow commit oldPathForLookup with
      | .error e => .error e
      | .ok oldContent =>
        match parseGherkinFile env oldContent oldPathForLookup with
        | .error e => .error e
        | .ok none => .ok (processChangeBase change)
        | .ok (some oldParsed) =>
          .ok { processChangeBase change with
                oldFeatureHash := some oldParsed.featureHash
                oldScenarioHashes := some (oldParsed.scenarios.map (fun s => s.hash))
                oldScenarios := some oldParsed.scenarios }

/-- Body of the `try` block of `processChange` (featuresync.js lines
250-280): the old-content step above, then fetch and extract the new
document at HEAD.  Every fetch or extraction failure surfaces as an error
here. -/
def processChangeCore (env : Env) (change : FileChange)
    (lastSyncedCommit : Option String) : Except String ProcessedChange :=
  match processOldStep env change lastSyncedCommit with
  | .error e => .error e
  | .ok withOld =>
    match change.newPath with
    | none => .ok withOld
    | some newPath =>
      match env.gitShow "HEAD" newPath with
      | .error e => .error e
      | .ok newContent =>
        match parseGherkinFile env newContent newPath with
        | .error e => .error e
        | .ok none => .ok withOld
        | .ok (some newParsed) =>
          .ok { withOld with
                feature := some
                  { hash := newParsed.featureHash
                    title := newParsed.feature.name
                    description := newParsed.feature.FeatureDescription
                    background := newParsed.feature.background }
                scenarios := some newParsed.scenarios }

/-- Embeds `processChange`: the catch clause of featuresync.js lines
281-284 turns any error of the try body into `null`. -/
def processChange (env : Env) (change : FileChange)
    (lastSyncedCommit : Option String) : Option ProcessedChange :=
  match processChangeCore env change lastSyncedCommit with
  | .ok processed => some processed
  | .error _ => none

/-- The step-4 loop of `featuresync` (featuresync.js lines 110-126):
process every change, keeping the non-null results in order. -/
def processAll (env : Env) (lastSyncedCommit : Option String) :
    List FileChange → List ProcessedChange
  | [] => []
  | change :: rest =>
    match processChange env change lastSyncedCommit with
    | some processed => processed :: processAll env lastSyncedCommit rest
    | none => processAll env lastSyncedCommit rest

/-- The old-hash accumulator filled by the same loop. -/
structure OldHashes where
  features : List String
  scenarios : List String
deriving DecidableEq

/-- Collection of old hashes (featuresync.js lines 118-125): a truthy
`oldFeatureHash` is pushed to `features`, an assigned `oldScenarioHashes`
array is spread into `scenarios`. -/
def collectOldHashes : List ProcessedChange → OldHashes
  | [] => { features := [], scenarios := [] }
  | processed :: rest =>
    let acc := collectOldHashes rest
    { features :=
        match processed.oldFeatureHash with
        | some h => if h ≠ "" then h :: acc.features else acc.features
        | none => acc.features
      scenarios :=
        match processed.oldScenarioHashes with
        | some hashes => hashes ++ acc.scenarios
        | none => acc.scenarios }

/-! ## Identity resolver (featuresync.js, resolveIds, lines 395-436) -/

/-- Nested result envelope of the resolve-ids response. -/
structure ResolveResults where
  suites : Option (List (String × Nat))
  cases : Option (List (String × Nat))

/-- Response body of the resolve-ids call. -/
structure ResolveResponse where
  results : Option ResolveResults

/-- Identity maps handed to the payload builder: hash-keyed tables of
remote suite and case ids. -/
structure ResolvedIds where
  suites : List (String × Nat)
  cases : List (String × Nat)
deriving DecidableEq

/-- Embeds `resolveIds(projectId, hashes, apiUrl, token)`: short-circuits
to empty maps when both hash lists are empty, otherwise issues the one
batched request (the HTTP call is the `fetch` parameter) and unwraps the
nested envelope with empty defaults. -/
def resolveIds
    (fetch : Int → Option (List String) → Option (List String) → Except String ResolveResponse)
    (projectId : Int) (hashes : OldHashes) : Except String ResolvedIds :=
  if hashes.features.length = 0 ∧ hashes.scenarios.length = 0 then
    .ok { suites := [], cases := [] }
  else
    let featuresField := if 0 < hashes.features.length then some hashes.features else none
    let scenariosField := if 0 < hashes.scenarios.length then some hashes.scenarios else none
    match fetch projectId featuresField scenariosField with
    | .error e => .error ("Failed to resolve IDs: " ++ e)
    | .ok responseData =>
      let results := responseData.results.getD { suites := none, cases := none }
      .ok { suites := results.suites.getD [], cases := results.cases.getD [] }

/-! ## Payload builder (featuresync.js, buildSyncPayload, lines 438-586)

The body of the per-change loop is split into named functions mirroring
the source's locals, so that each step can be reasoned about: the
scenario-mapping callback of lines 490-544, the deletion-marker loop of
lines 552-572 and the feature enrichment of lines 462-481. -/

/-- Feature object of the wire payload. -/
structure PayloadFeature where
  hash : String
  title : String
  description : String
  background : Option (List String)
  prevHash : Option String := none
  suiteId : Option Nat := none
deriving DecidableEq

/-- Scenario entry of the wire payload.  A field that the source never
assigns on an entry is `none`; `deleted` is only ever set to `true` on
deletion markers. -/
structure PayloadScenario where
  hash : Option String := none
  title : Option String := none
  prevHash : Option String := none
  caseId : Option Nat := none
  steps : Option (List String) := none
  deleted : Bool := false
deriving DecidableEq

/-- Change object of the wire payload. -/
structure PayloadChange where
  status : String
  oldPath : Option String
  newPath : Option String
  feature : Option PayloadFeature := none
  scenarios : Option (List PayloadScenario) := none
deriving DecidableEq

/-- The GherkinSyncDelta wire payload. -/
structure SyncPayload where
  projectId : Int
  prevCommit : Option String
  headCommit : String
  changes : List PayloadChange
deriving DecidableEq

/-- Access to a hash-keyed JavaScript object such as `resolvedIds.suites`. -/
def idLookup (table : List (String × Nat)) (key : String) : Option Nat :=
  (table.find? (fun kv => decide (kv.fst = key))).map (fun kv => kv.snd)

/-- Embeds the JavaScript `Map` built by
`new Map(oldScenarios.map(s => [s.title, s.hash]))` together with its
`.get`: on duplicate titles the later entry wins. -/
def oldTitleToHashGet (olds : List PScenario) (title : String) : Option String :=
  (((olds.map (fun s => (s.title, s.hash))).reverse.find?
      (fun kv => decide (kv.fst = title))).map (fun kv => kv.snd))

/-- The `sameLengthAsOld` flag of featuresync.js line 488: an old-hash
array exists and its length equals the new scenario count. -/
def sameLengthAsOld (change : ProcessedChange) (newCount : Nat) : Bool :=
  change.oldScenarioHashes.isSome
    && decide ((change.oldScenarioHashes.getD []).length = newCount)

/-- Embeds `Array.prototype.map` with an index argument. -/
def mapWithIndex (f : Nat → α → β) : Nat → List α → List β
  | _, [] => []
  | i, a :: rest => f i a :: mapWithIndex f (i + 1) rest

/-- The three-tier prevHash decision of featuresync.js lines 496-515:
hash-set membership, then title lookup, then the positional fallback
guarded by `sameLengthAsOld` and the truthiness of the indexed element. -/
def scenarioPrevHash (change : ProcessedChange) (sameLength : Bool)
    (index : Nat) (scenario : PScenario) : Option String :=
  let oldHashes := change.oldScenarioHashes.getD []
  if scenario.hash ∈ oldHashes then
    some scenario.hash
  else
    match oldTitleToHashGet (change.oldScenarios.getD []) scenario.title with
    | some h => some h
    | none =>
      if sameLength && truthyStr (oldHashes.get? index) then
        oldHashes.get? index
      else
        none

/-- The caseId attachment of featuresync.js lines 517-523: only a truthy
prevHash is looked up, and only a truthy caseId is attached. -/
def scenarioCaseId (resolved : ResolvedIds) (prevHash : Option String) : Option Nat :=
  if truthyStr prevHash then
    match idLookup resolved.cases (prevHash.getD "") with
    | some c => if c ≠ 0 then some c else none
    | none => none
  else none

/-- The scenario-mapping callback of featuresync.js lines 490-544. -/
def buildPayloadScenario (resolved : ResolvedIds) (change : ProcessedChange)
    (sameLength : Bool) (index : Nat) (scenario : PScenario) : PayloadScenario :=
  { hash := some scenario.hash
    title := some scenario.title
    prevHash := scenarioPrevHash change sameLength index scenario
    caseId := scenarioCaseId resolved (scenarioPrevHash change sameLength index scenario)
    steps := if change.status ≠ "R100" then some scenario.steps else none
    deleted := false }

/-- The mapped scenario list (featuresync.js line 490), absent when the
processed change has no new scenarios. -/
def mappedScenarios (resolved : ResolvedIds) (change : ProcessedChange) :
    Option (List PayloadScenario) :=
  match change.scenarios with
  | none => none
  | some newScenarios =>
    some (mapWithIndex
      (buildPayloadScenario resolved change (sameLengthAsOld change newScenarios.length))
      0 newScenarios)

/-- A deletion marker (featuresync.js line 559). -/
def mkDeletionMarker (oldHash : String) : PayloadScenario :=
  { prevHash := some oldHash, deleted := true }

/-- Guard of the deletion block (featuresync.js line 553). -/
def doDeletionPass (change : ProcessedChange) : Bool :=
  change.oldScenarioHashes.isSome
    && decide (0 < (change.oldScenarioHashes.getD []).length)
    && decide (change.status ≠ "A")

/-- The `newHashes` set of featuresync.js line 555 (`filter(Boolean)` drops
empty strings). -/
def claimedNewHashes (resolved : ResolvedIds) (change : ProcessedChange) : List String :=
  (((mappedScenarios resolved change).getD []).filterMap (fun s => s.hash)).filter
    (fun h => decide (h ≠ ""))

/-- The `newPrevHashes` set of featuresync.js line 556. -/
def claimedPrevHashes (resolved : ResolvedIds) (change : ProcessedChange) : List String :=
  (((mappedScenarios resolved change).getD []).filterMap (fun s => s.prevHash)).filter
    (fun h => decide (h ≠ ""))

/-- The deletion-marker loop of featuresync.js lines 557-564: one marker
is pushed for every traversed old hash claimed by no mapped entry. -/
def deletionMarkers (resolved : ResolvedIds) (change : ProcessedChange) :
    List PayloadScenario :=
  if doDeletionPass change then
    ((change.oldScenarioHashes.getD []).filter (fun oldHash =>
        decide (oldHash ∉ claimedNewHashes resolved change
          ∧ oldHash ∉ claimedPrevHashes resolved change))).map mkDeletionMarker
  else []

/-- The feature enrichment of featuresync.js lines 462-481: `prevHash` is
attached for rename statuses, `suiteId` whenever a truthy old feature hash
resolves to a truthy suite id. -/
def buildPayloadFeature (resolved : ResolvedIds) (change : ProcessedChange) :
    Option PayloadFeature :=
  match change.feature with
  | none => none
  | some f =>
    some { hash := f.hash
           title := f.title
           description := f.description
           background := f.background
           prevHash :=
             if jsStartsWith change.status "R" && truthyStr change.oldFeatureHash then
               change.oldFeatureHash
             else none
           suiteId :=
             if truthyStr change.oldFeatureHash then
               match idLookup resolved.suites (change.oldFeatureHash.getD "") with
               | some s => if s ≠ 0 then some s else none
               | none => none
             else none }

/-- One change of the payload (the loop body of featuresync.js lines
449-574).  When the change carried new scenarios the markers are appended
to the mapped entries (the source pushes into the same array); otherwise
the scenarios field is set only when at least one marker was pushed. -/
def buildPayloadChange (resolved : ResolvedIds) (change : ProcessedChange) :
    PayloadChange :=
  { status := change.status
    oldPath := change.oldPath
    newPath := change.newPath
    feature := buildPayloadFeature resolved change
    scenarios :=
      match mappedScenarios resolved change with
      | some mapped => some (mapped ++ deletionMarkers resolved change)
      | none =>
        if 0 < (deletionMarkers resolved change).length then
          some (deletionMarkers resolved change)
        else none }

/-- Embeds `buildSyncPayload` (featuresync.js lines 441-586); the
`parseInt` coercion of the project id is modelled by taking the id as an
integer. -/
def buildSyncPayload (projectId : Int) (prevCommit : Option String)
    (headCommit : String) (changes : List ProcessedChange)
    (resolvedIds : ResolvedIds) : SyncPayload :=
  { projectId := projectId
    prevCommit := prevCommit
    headCommit := headCommit
    changes := changes.map (buildPayloadChange resolvedIds) }

/-! ## Theorems -/

/-- Concatenating with the right factor fixed is injective on strings. -/
theorem append_right_string_injective (p1 p2 s : String) (h : p1 ++ s = p2 ++ s) :
    p1 = p2 := by
  have hd : p1.data ++ s.data = p2.data ++ s.data := by
    have := congrArg String.data h
    simpa [String.data_append] using this
  have hdd : p1.data = p2.data := List.append_cancel_right hd
  cases p1; cases p2
  exact congrArg String.mk hdd

/-- Claim C1 (amended).  `calculateHash` is deterministic, and — assuming a
collision-free digest — produces different hashes whenever the combined
data string `filePath ++ ":" ++ content` differs; in particular identical
content at two different paths always yields two different hashes.  (The
unamended claim that ANY change of path or content changes the hash fails
at the colon boundary, see `hash_collision_on_colon_boundary`.) -/
theorem calculateHash_deterministic_and_data_sensitive
    (digest : String → String) (hinj : Function.Injective digest) :
    (∀ content filePath,
        calculateHash digest content filePath = calculateHash digest content filePath) ∧
    (∀ c1 p1 c2 p2, hashData c1 p1 ≠ hashData c2 p2 →
        calculateHash digest c1 p1 ≠ calculateHash digest c2 p2) ∧
    (∀ content p1 p2, p1 ≠ p2 →
        calculateHash digest content p1 ≠ calculateHash digest content p2) := by
  refine ⟨fun _ _ => rfl, ?_, ?_⟩
  · intro c1 p1 c2 p2 hdata heq
    exact hdata (hinj heq)
  · intro content p1 p2 hne heq
    apply hne
    have hdata : hashData content p1 = hashData content p2 := hinj heq
    have h1 : (p1 ++ ":") ++ content = (p2 ++ ":") ++ content := by
      simpa [hashData, String.append_assoc] using hdata
    have h2 : p1 ++ ":" = p2 ++ ":" := append_right_string_injective _ _ _ h1
    exact append_right_string_injective _ _ _ h2

/-- Claim C1, counterexample to the unamended claim: two different
(content, path) pairs whose data strings coincide because the colon
boundary shifts; every digest therefore maps them to the same hash. -/
theorem hash_collision_on_colon_boundary :
    calculateHash id "b:c" "a" = calculateHash id "c" "a:b" ∧
    hashData "b:c" "a" = hashData "c" "a:b" ∧
    (("b:c", "a") : String × String) ≠ ("c", "a:b") := by
  refine ⟨by decide, by decide, by decide⟩

/-- Claim C1, witness: the amended theorem applied at a concrete injective
digest and concrete distinct paths. -/
theorem calculateHash_path_sensitivity_witness :
    calculateHash id "Given a step" "features/a.feature"
      ≠ calculateHash id "Given a step" "features/b.feature" :=
  (calculateHash_deterministic_and_data_sensitive id (fun _ _ h => h)).2.2
    "Given a step" "features/a.feature" "features/b.feature" (by decide)

/-- Raw feature used by the concrete environments below. -/
def rawFeatureLogin : RawFeature :=
  { name := "User Login"
    children :=
      [ .background [{ keyword := "Given ", text := "the application is running" }]
      , .scenario "Happy path" [{ keyword := "When ", text := "I click login" }] ] }

/-- Environment in which content exists at HEAD but not at the prior
revision — exactly the situation of a genuinely Added file. -/
def envAddedFetch : Env :=
  { digest := id
    gparse := fun _ => .ok (some rawFeatureLogin)
    gitShow := fun rev _ =>
      if rev = "HEAD" then .ok "feature content"
      else .error "fatal: path does not exist in prior revision" }

/-- An Added change, as the diff classifier produces it. -/
def addedLoginChange : FileChange :=
  { status := "A", oldPath := none, newPath := some "login.feature" }

/-- Claim C5 (code bug, evaluated at the failing input).  With a prior
revision present, `processChange` looks the Added file up at the prior
revision (`change.oldPath || change.newPath` falls back to the new path),
the fetch fails, and the whole Added change is dropped — whereas without a
prior revision the very same environment and change process fine.  The
claim (and the comment above the source lines) says old content is
fetched only for non-Addition changes. -/
theorem added_change_dropped_when_prior_revision_exists :
    processChange envAddedFetch addedLoginChange (some "prevsha") = none ∧
    (processChange envAddedFetch addedLoginChange none).isSome = true := by
  refine ⟨by decide, by decide⟩

/-- Environment whose grammar parser accepts everything, used to follow a
document through to the wire payload. -/
def envSteps : Env :=
  { digest := id
    gparse := fun _ => .ok (some rawFeatureLogin)
    gitShow := fun _ _ => .ok "file content" }

/-- Empty identity maps. -/
def emptyResolved : ResolvedIds := { suites := [], cases := [] }

/-- The processed change produced for the login feature. -/
def stepsProcessed : ProcessedChange :=
  (processChange envSteps addedLoginChange none).getD
    { status := "", oldPath := none, newPath := none }

/-- Claim C9 (code bug, evaluated at the failing input).  Both the
background steps and the scenario steps carried in the wire payload are
plain concatenated strings `keyword + text` (the keyword keeps its
trailing space inside the string) — not keyword/text records with a
trimmed keyword as the specification and the repository's own tests
require. -/
theorem payload_steps_are_concatenated_strings :
    ((buildPayloadChange emptyResolved stepsProcessed).feature.map (fun f => f.background))
        = some (some ["Given the application is running"]) ∧
    (((buildPayloadChange emptyResolved stepsProcessed).scenarios.getD []).map
        (fun s => s.steps))
        = [some ["When I click login"]] := by
  refine ⟨by decide, by decide⟩

/-- Claim C6.  A failure inside the try body of `processChange` for one
file is absorbed at the processor boundary: that change yields `none`, and
running the step-4 loop over any list containing the failing change gives
exactly the result of running it without that change — the other files
are unaffected. -/
theorem process_change_error_isolated
    (env : Env) (lastSyncedCommit : Option String) (pre post : List FileChange)
    (change : FileChange) (err : String)
    (herr : processChangeCore env change lastSyncedCommit = .error err) :
    processChange env change lastSyncedCommit = none ∧
    processAll env lastSyncedCommit (pre ++ change :: post)
      = processAll env lastSyncedCommit (pre ++ post) := by
  have hnone : processChange env change lastSyncedCommit = none := by
    unfold processChange
    rw [herr]
  refine ⟨hnone, ?_⟩
  induction pre with
  | nil => simp [processAll, hnone]
  | cons c cs ih =>
    cases h : processChange env c lastSyncedCommit with
    | none =>
      simp only [List.cons_append, processAll, h, List.append_eq]
      exact ih
    | some p =>
      simp only [List.cons_append, processAll, h, List.append_eq]
      rw [ih]

/-- Environment whose grammar parser always rejects its input. -/
def envParseFails : Env :=
  { digest := id
    gparse := fun _ => .error "unexpected token"
    gitShow := fun _ _ => .ok "file content" }

/-- Claim C6, witness: the isolation theorem applied to a concrete
parse failure. -/
theorem process_change_error_isolated_witness :
    processChange envParseFails addedLoginChange none = none ∧
    processAll envParseFails none ([] ++ addedLoginChange :: [])
      = processAll envParseFails none ([] ++ []) :=
  process_change_error_isolated envParseFails none [] [] addedLoginChange
    "Failed to parse Gherkin file: unexpected token" rfl

/-- Without a prior revision `processChange` never assigns the old-hash
fields: the old-content block is guarded by the prior revision. -/
theorem processChange_no_prior_no_old_fields (env : Env) (change : FileChange)
    (p : ProcessedChange) (h : processChange env change none = some p) :
    p.oldFeatureHash = none ∧ p.oldScenarioHashes = none := by
  unfold processChange processChangeCore processOldStep at h
  cases hnp : change.newPath with
  | none =>
    simp only [hnp, Option.some.injEq] at h
    rw [← h]
    exact ⟨rfl, rfl⟩
  | some newPath =>
    simp only [hnp] at h
    cases hshow : env.gitShow "HEAD" newPath with
    | error e =>
      simp only [hshow] at h
      exact Option.noConfusion h
    | ok newContent =>
      simp only [hshow] at h
      cases hparse : parseGherkinFile env newContent newPath with
      | error e =>
        simp only [hparse] at h
        exact Option.noConfusion h
      | ok od =>
        simp only [hparse] at h
        cases od with
        | none =>
          simp only [Option.some.injEq] at h
          rw [← h]
          exact ⟨rfl, rfl⟩
        | some d =>
          simp only [Option.some.injEq] at h
          rw [← h]
          exact ⟨rfl, rfl⟩

/-- Running the processing loop with no prior revision collects no old
hashes at all. -/
theorem collectOldHashes_processAll_no_prior (env : Env) (lst : List FileChange) :
    collectOldHashes (processAll env none lst) = { features := [], scenarios := [] } := by
  induction lst with
  | nil => rfl
  | cons c cs ih =>
    cases h : processChange env c none with
    | none =>
      simp only [processAll, h]
      exact ih
    | some p =>
      have hp := processChange_no_prior_no_old_fields env c p h
      simp only [processAll, h, collectOldHashes, hp.1, hp.2, ih]

/-- Claim C8.  On an initial sync every tracked spec file is synthesized
as an Added change with no old path (and a `.feature` new path); with no
prior revision the loop collects no old hashes, and `resolveIds` on the
empty hash sets returns empty maps with a result that does not depend on
the network at all (any two fetch functions give the same answer). -/
theorem initial_sync_short_circuits
    (allFiles : String) (env : Env)
    (fetch1 fetch2 :
      Int → Option (List String) → Option (List String) → Except String ResolveResponse)
    (projectId : Int) :
    (∀ change ∈ initialSyncChanges allFiles,
        change.status = "A" ∧ change.oldPath = none ∧
        ∃ p, change.newPath = some p ∧ jsEndsWith p ".feature" = true) ∧
    collectOldHashes (processAll env none (initialSyncChanges allFiles))
        = { features := [], scenarios := [] } ∧
    resolveIds fetch1 projectId
        (collectOldHashes (processAll env none (initialSyncChanges allFiles)))
        = .ok { suites := [], cases := [] } ∧
    resolveIds fetch1 projectId
        (collectOldHashes (processAll env none (initialSyncChanges allFiles)))
        = resolveIds fetch2 projectId
            (collectOldHashes (processAll env none (initialSyncChanges allFiles))) := by
  have hcollect := collectOldHashes_processAll_no_prior env (initialSyncChanges allFiles)
  refine ⟨?_, hcollect, ?_, ?_⟩
  · intro change hc
    rcases List.mem_map.mp hc with ⟨file, hfile, rfl⟩
    refine ⟨rfl, rfl, jsTrim file, rfl, ?_⟩
    exact (List.mem_filter.mp hfile).2
  · rw [hcollect]
    rfl
  · rw [hcollect]
    rfl

/-- Starting with a one-character string tests exactly the first
character. -/
theorem jsStartsWith_single_char (a c : Char) (ds : List Char) :
    jsStartsWith ⟨c :: ds⟩ ⟨[a]⟩ = (a == c) := by
  show List.isPrefixOf [a] (c :: ds) = (a == c)
  simp [List.isPrefixOf]

/-- Every status captured by the diff regex is one status letter followed
by digit characters. -/
theorem matchDiffLine_status_shape (line status path1 : String) (path2 : Option String)
    (h : matchDiffLine line = some (status, path1, path2)) :
    ∃ c ds, isStatusChar c = true ∧ status = ⟨c :: ds⟩ := by
  unfold matchDiffLine at h
  cases hl : line.toList with
  | nil =>
    rw [hl] at h
    cases h
  | cons c cs =>
    rw [hl] at h
    by_cases hc : isStatusChar c = true
    · simp only [hc, if_true] at h
      refine ⟨c, cs.takeWhile Char.isDigit, hc, ?_⟩
      split at h
      · cases h
      · split at h
        · split at h
          · simp only [Option.some.injEq, Prod.mk.injEq] at h
            exact h.1.symm
          · cases h
        · split at h
          · simp only [Option.some.injEq, Prod.mk.injEq] at h
            exact h.1.symm
          · cases h
    · simp only [hc, if_false] at h
      cases h

/-- Claim C7.  Every change record produced by the diff classifier
satisfies the documented invariants: at least one path is present; an
Added record has no old path; a Deleted record has no new path; a Renamed
record has both; the old path is populated only for Deleted/Renamed and
the new path only for Added/Modified/Renamed; and one of the paths ends
with the spec-file extension. -/
theorem parse_diff_output_invariants (diffOutput : String) (change : FileChange)
    (hc : change ∈ parseDiffOutput diffOutput) :
    (change.oldPath ≠ none ∨ change.newPath ≠ none) ∧
    (jsStartsWith change.status "A" = true → change.oldPath = none) ∧
    (jsStartsWith change.status "D" = true → change.newPath = none) ∧
    (jsStartsWith change.status "R" = true →
      change.oldPath.isSome = true ∧ change.newPath.isSome = true) ∧
    (change.oldPath.isSome = true →
      (jsStartsWith change.status "D" || jsStartsWith change.status "R") = true) ∧
    (change.newPath.isSome = true →
      (jsStartsWith change.status "A" || jsStartsWith change.status "M"
        || jsStartsWith change.status "R") = true) ∧
    ((∃ p, change.oldPath = some p ∧ jsEndsWith p ".feature" = true) ∨
     (∃ p, change.newPath = some p ∧ jsEndsWith p ".feature" = true)) := by
  unfold parseDiffOutput at hc
  split at hc
  · cases hc
  · rcases List.mem_filterMap.mp hc with ⟨line, hline, heq⟩
    cases hm : matchDiffLine line with
    | none =>
      rw [hm] at heq
      cases heq
    | some triple =>
      rcases triple with ⟨status, path1, path2⟩
      rw [hm] at heq
      by_cases hkeep : keepsFeatureFile (classifyDiffRecord status path1 path2) = true
      · simp only [hkeep, if_true, Option.some.injEq] at heq
        rcases matchDiffLine_status_shape line status path1 path2 hm with ⟨c, ds, hcstat, hst⟩
        subst heq
        have hA : jsStartsWith (classifyDiffRecord status path1 path2).status "A" = ('A' == c) := by
          rw [show (classifyDiffRecord status path1 path2).status = status from rfl, hst]
          exact jsStartsWith_single_char 'A' c ds
        have hM : jsStartsWith (classifyDiffRecord status path1 path2).status "M" = ('M' == c) := by
          rw [show (classifyDiffRecord status path1 path2).status = status from rfl, hst]
          exact jsStartsWith_single_char 'M' c ds
        have hD : jsStartsWith (classifyDiffRecord status path1 path2).status "D" = ('D' == c) := by
          rw [show (classifyDiffRecord status path1 path2).status = status from rfl, hst]
          exact jsStartsWith_single_char 'D' c ds
        have hR : jsStartsWith (classifyDiffRecord status path1 path2).status "R" = ('R' == c) := by
          rw [show (classifyDiffRecord status path1 path2).status = status from rfl, hst]
          exact jsStartsWith_single_char 'R' c ds
        have hOld : (classifyDiffRecord status path1 path2).oldPath
            = (if jsStartsWith status "D" || jsStartsWith status "R" then some path1 else none) := rfl
        have hNew : (classifyDiffRecord status path1 path2).newPath
            = (if jsStartsWith status "A" || jsStartsWith status "M" || jsStartsWith status "R"
               then some (path2.getD path1) else none) := rfl
        have hSD : jsStartsWith status "D" = ('D' == c) := by
          rw [hst]; exact jsStartsWith_single_char 'D' c ds
        have hSR : jsStartsWith status "R" = ('R' == c) := by
          rw [hst]; exact jsStartsWith_single_char 'R' c ds
        have hSA : jsStartsWith status "A" = ('A' == c) := by
          rw [hst]; exact jsStartsWith_single_char 'A' c ds
        have hSM : jsStartsWith status "M" = ('M' == c) := by
          rw [hst]; exact jsStartsWith_single_char 'M' c ds
        have hfeature :
            (∃ p, (classifyDiffRecord status path1 path2).oldPath = some p
                ∧ jsEndsWith p ".feature" = true) ∨
            (∃ p, (classifyDiffRecord status path1 path2).newPath = some p
                ∧ jsEndsWith p ".feature" = true) := by
          unfold keepsFeatureFile at hkeep
          rcases Bool.or_eq_true_iff.mp hkeep with hl | hr
          · left
            cases ho : (classifyDiffRecord status path1 path2).oldPath with
            | none => rw [ho] at hl; cases hl
            | some p =>
              rw [ho] at hl
              exact ⟨p, rfl, hl⟩
          · right
            cases hn : (classifyDiffRecord status path1 path2).newPath with
            | none => rw [hn] at hr; cases hr
            | some p =>
              rw [hn] at hr
              exact ⟨p, rfl, hr⟩
        refine ⟨?_, ?_, ?_, ?_, ?_, ?_, hfeature⟩
        · rcases hfeature with ⟨p, hp, _⟩ | ⟨p, hp, _⟩
          · exact Or.inl (by rw [hp]; exact fun hx => Option.noConfusion hx)
          · exact Or.inr (by rw [hp]; exact fun hx => Option.noConfusion hx)
        · intro hax
          rw [hA] at hax
          have hca : c = 'A' := (eq_of_beq hax).symm
          rw [hOld, hSD, hSR, hca]
          simp
        · intro hdx
          rw [hD] at hdx
          have hcd : c = 'D' := (eq_of_beq hdx).symm
          rw [hNew, hSA, hSM, hSR, hcd]
          simp
        · intro hrx
          rw [hR] at hrx
          have hcr : c = 'R' := (eq_of_beq hrx).symm
          constructor
          · rw [hOld, hSD, hSR, hcr]
            simp
          · rw [hNew, hSA, hSM, hSR, hcr]
            simp
        · intro hop
          rw [hOld, hSD, hSR] at hop
          rw [hD, hR]
          by_cases hdr : (('D' == c) || ('R' == c)) = true
          · exact hdr
          · rw [if_neg (by simpa using hdr)] at hop
            cases hop
        · intro hnp
          rw [hNew, hSA, hSM, hSR] at hnp
          rw [hA, hM, hR]
          by_cases hamr : (('A' == c) || ('M' == c) || ('R' == c)) = true
          · exact hamr
          · rw [if_neg (by simpa using hamr)] at hnp
            cases hnp
      · simp only [hkeep, if_false] at heq
        cases heq

/-- Claim C7, witness: the invariants applied to the record parsed from a
concrete rename diff line. -/
theorem parse_diff_output_invariants_witness :
    (⟨"R100", some "old.feature", some "new.feature"⟩ : FileChange).oldPath.isSome = true ∧
    (⟨"R100", some "old.feature", some "new.feature"⟩ : FileChange).newPath.isSome = true :=
  (parse_diff_output_invariants "R100\told.feature\tnew.feature"
      ⟨"R100", some "old.feature", some "new.feature"⟩ (by decide)).2.2.2.1 (by decide)

/-- Length is preserved by the indexed map. -/
theorem mapWithIndex_length (f : Nat → α → β) (n : Nat) (l : List α) :
    (mapWithIndex f n l).length = l.length := by
  induction l generalizing n with
  | nil => rfl
  | cons a as ih => simp [mapWithIndex, ih]

/-- Element lookup under the indexed map. -/
theorem mapWithIndex_get? (f : Nat → α → β) (n i : Nat) (l : List α) :
    (mapWithIndex f n l).get? i = (l.get? i).map (f (n + i)) := by
  induction l generalizing n i with
  | nil => simp [mapWithIndex]
  | cons a as ih =>
    cases i with
    | zero => simp [mapWithIndex]
    | succ j =>
      simp only [mapWithIndex, List.get?]
      rw [ih (n + 1) j]
      have hidx : n + 1 + j = n + (j + 1) := by omega
      rw [hidx]

/-- Every element of the indexed map comes from an element of the list. -/
theorem mem_mapWithIndex (f : Nat → α → β) (n : Nat) (l : List α) (b : β)
    (h : b ∈ mapWithIndex f n l) : ∃ i a, a ∈ l ∧ b = f i a := by
  induction l generalizing n with
  | nil => cases h
  | cons a as ih =>
    rcases List.mem_cons.mp h with h1 | h2
    · exact ⟨n, a, List.mem_cons_self a as, h1⟩
    · rcases ih (n + 1) h2 with ⟨i, x, hx, hb⟩
      exact ⟨i, x, List.mem_cons_of_mem a hx, hb⟩

/-- A successful title lookup returns the hash of an old scenario with
that exact title. -/
theorem oldTitleToHashGet_some (olds : List PScenario) (t h : String)
    (hl : oldTitleToHashGet olds t = some h) :
    ∃ os ∈ olds, os.title = t ∧ os.hash = h := by
  unfold oldTitleToHashGet at hl
  cases hf : ((olds.map (fun s => (s.title, s.hash))).reverse.find?
      (fun kv => decide (kv.fst = t))) with
  | none =>
    rw [hf] at hl
    cases hl
  | some kv =>
    rw [hf] at hl
    simp only [Option.map_some', Option.some.injEq] at hl
    have hmem := List.mem_of_find?_eq_some hf
    have hpred := List.find?_some hf
    have hkv1 : kv.fst = t := of_decide_eq_true hpred
    rcases List.mem_map.mp (List.mem_reverse.mp hmem) with ⟨os, hos, hkv⟩
    subst hkv
    exact ⟨os, hos, hkv1, hl⟩

/-- Filtering a duplicate-free list for one of its members keeps exactly
that member. -/
theorem filter_eq_singleton_of_nodup [DecidableEq α] (l : List α) (a : α)
    (nd : l.Nodup) (ha : a ∈ l) :
    l.filter (fun x => decide (x = a)) = [a] := by
  induction l with
  | nil => cases ha
  | cons b bs ih =>
    rcases List.mem_cons.mp ha with heq | hmem
    · subst heq
      rw [List.filter_cons_of_pos (by simp)]
      have hnotin : a ∉ bs := (List.nodup_cons.mp nd).1
      have hrest : bs.filter (fun x => decide (x = a)) = [] := by
        refine List.filter_eq_nil_iff.mpr ?_
        intro x hx hdec
        have hxa : x = a := of_decide_eq_true hdec
        exact hnotin (hxa ▸ hx)
      rw [hrest]
    · have hba : ¬(b = a) := by
        rintro rfl
        exact (List.nodup_cons.mp nd).1 hmem
      rw [List.filter_cons_of_neg (by simpa using hba)]
      exact ih (List.nodup_cons.mp nd).2 hmem

/-- Claim C2.  For a processed change with new scenarios and old scenario
data, the i-th emitted payload entry gets its `prevHash` by the three-tier
policy with first match winning: (1) hash-set membership uses the new hash
itself; (2) otherwise a successful title lookup uses the hash of an old
scenario with the identical title; (3) otherwise, when and only when the
old and new scenario counts are equal, the old hash at the same index is
used; in all remaining cases no `prevHash` is assigned. -/
theorem scenario_match_priority
    (resolved : ResolvedIds) (change : ProcessedChange)
    (newScens : List PScenario) (ohs : List String) (olds : List PScenario)
    (hs : change.scenarios = some newScens)
    (hoh : change.oldScenarioHashes = some ohs)
    (hos : change.oldScenarios = some olds)
    (hne : ∀ x ∈ ohs, x ≠ "")
    (i : Nat) (s : PScenario) (hi : newScens.get? i = some s) :
    ∃ e : PayloadScenario,
      ((buildPayloadChange resolved change).scenarios.getD []).get? i = some e ∧
      (s.hash ∈ ohs → e.prevHash = some s.hash) ∧
      (s.hash ∉ ohs →
        ∀ h, oldTitleToHashGet olds s.title = some h →
          e.prevHash = some h ∧ ∃ os ∈ olds, os.title = s.title ∧ os.hash = h) ∧
      (s.hash ∉ ohs → oldTitleToHashGet olds s.title = none →
        ohs.length = newScens.length →
          e.prevHash = ohs.get? i ∧ (ohs.get? i).isSome = true) ∧
      (s.hash ∉ ohs → oldTitleToHashGet olds s.title = none →
        ohs.length ≠ newScens.length → e.prevHash = none) := by
  have hmapped : mappedScenarios resolved change
      = some (mapWithIndex
          (buildPayloadScenario resolved change (sameLengthAsOld change newScens.length))
          0 newScens) := by
    unfold mappedScenarios
    rw [hs]
  have hscen : (buildPayloadChange resolved change).scenarios
      = some (mapWithIndex
          (buildPayloadScenario resolved change (sameLengthAsOld change newScens.length))
          0 newScens ++ deletionMarkers resolved change) := by
    simp only [buildPayloadChange, hmapped]
  have hilt : i < newScens.length := by
    by_contra hge
    rw [List.get?_eq_none.mpr (Nat.le_of_not_lt hge)] at hi
    cases hi
  refine ⟨buildPayloadScenario resolved change (sameLengthAsOld change newScens.length) i s,
    ?_, ?_, ?_, ?_, ?_⟩
  · rw [hscen]
    simp only [Option.getD_some]
    rw [List.get?_append (by rw [mapWithIndex_length]; exact hilt)]
    rw [mapWithIndex_get?, Nat.zero_add, hi]
    rfl
  · intro hmemh
    show scenarioPrevHash change (sameLengthAsOld change newScens.length) i s = some s.hash
    simp only [scenarioPrevHash, hoh, Option.getD_some]
    rw [if_pos hmemh]
  · intro hnot h hlook
    refine ⟨?_, oldTitleToHashGet_some olds s.title h hlook⟩
    show scenarioPrevHash change (sameLengthAsOld change newScens.length) i s = some h
    simp only [scenarioPrevHash, hoh, hos, Option.getD_some]
    rw [if_neg hnot, hlook]
  · intro hnot hlookn hleq
    have hilt2 : i < ohs.length := by rw [hleq]; exact hilt
    obtain ⟨x, hx⟩ : ∃ x, ohs.get? i = some x := by
      cases ho : ohs.get? i with
      | none =>
        rw [List.get?_eq_none] at ho
        omega
      | some x => exact ⟨x, rfl⟩
    have hxne : x ≠ "" := hne x (List.get?_mem hx)
    have hsl : sameLengthAsOld change newScens.length = true := by
      simp [sameLengthAsOld, hoh, hleq]
    constructor
    · show scenarioPrevHash change (sameLengthAsOld change newScens.length) i s = ohs.get? i
      simp only [scenarioPrevHash, hoh, hos, Option.getD_some, if_neg hnot, hlookn, hsl, hx,
        Bool.true_and]
      simp [truthyStr, hxne]
    · rw [hx]
      rfl
  · intro hnot hlookn hlne
    have hsl : sameLengthAsOld change newScens.length = false := by
      simp only [sameLengthAsOld, hoh, Option.isSome_some, Option.getD_some, Bool.true_and,
        decide_eq_false_iff_not]
      exact hlne
    show scenarioPrevHash change (sameLengthAsOld change newScens.length) i s = none
    simp only [scenarioPrevHash, hoh, hos, Option.getD_some, if_neg hnot, hlookn, hsl,
      Bool.false_and]
    simp

/-- Old/new scenario data of the spec's matcher example: one scenario with
unchanged steps, one with an unchanged title, one entirely new. -/
def matcherOlds : List PScenario :=
  [⟨"h1", "Alpha", ["Given a"]⟩, ⟨"h2", "Beta", ["Given b"]⟩, ⟨"h3", "Gamma", ["Given c"]⟩]

/-- New scenarios of the matcher example. -/
def matcherNews : List PScenario :=
  [⟨"h1", "AlphaRenamed", ["Given a"]⟩, ⟨"h2x", "Beta", ["Given bb"]⟩]

/-- Modified change carrying the matcher example. -/
def matcherChange : ProcessedChange :=
  { status := "M", oldPath := none, newPath := some "f.feature"
    oldScenarioHashes := some ["h1", "h2", "h3"]
    oldScenarios := some matcherOlds
    scenarios := some matcherNews }

/-- Claim C2, witness: applying the matcher theorem at the concrete
title-match scenario assigns the old hash of the scenario with the same
title. -/
theorem scenario_match_priority_witness :
    ∃ e : PayloadScenario,
      ((buildPayloadChange emptyResolved matcherChange).scenarios.getD []).get? 1 = some e ∧
      e.prevHash = some "h2" := by
  obtain ⟨e, hgot, _, htitle, _, _⟩ :=
    scenario_match_priority emptyResolved matcherChange matcherNews ["h1", "h2", "h3"]
      matcherOlds rfl rfl rfl (by decide) 1 ⟨"h2x", "Beta", ["Given bb"]⟩ (by decide)
  exact ⟨e, hgot, (htitle (by decide) "h2" (by decide)).1⟩

/-- Every deletion marker comes from an old scenario hash. -/
theorem mem_deletionMarkers (resolved : ResolvedIds) (change : ProcessedChange)
    (e : PayloadScenario) (he : e ∈ deletionMarkers resolved change) :
    ∃ h2, h2 ∈ change.oldScenarioHashes.getD [] ∧ e = mkDeletionMarker h2 := by
  unfold deletionMarkers at he
  split at he
  · rcases List.mem_map.mp he with ⟨h2, hh2, hmk⟩
    exact ⟨h2, List.mem_of_mem_filter hh2, hmk.symm⟩
  · cases he

/-- The emitted scenario list is always the mapped entries followed by the
deletion markers (either list may be empty). -/
theorem payload_scenarios_getD (resolved : ResolvedIds) (change : ProcessedChange) :
    (buildPayloadChange resolved change).scenarios.getD []
      = (mappedScenarios resolved change).getD [] ++ deletionMarkers resolved change := by
  cases hm : mappedScenarios resolved change with
  | some mapped => simp [buildPayloadChange, hm]
  | none =>
    simp only [buildPayloadChange, hm, Option.getD_none, List.nil_append]
    split
    · simp
    · rename_i hlen
      cases hD : deletionMarkers resolved change with
      | nil => rfl
      | cons a as =>
        rw [hD] at hlen
        exact absurd (by simp) hlen

/-- Every element of the emitted scenario list is either a mapped entry
built from a new scenario or a deletion marker built from an old hash. -/
theorem mem_payload_scenarios_cases (resolved : ResolvedIds) (change : ProcessedChange)
    (e : PayloadScenario)
    (he : e ∈ (buildPayloadChange resolved change).scenarios.getD []) :
    (∃ i s newScens, change.scenarios = some newScens ∧ s ∈ newScens ∧
        e = buildPayloadScenario resolved change
              (sameLengthAsOld change newScens.length) i s) ∨
    (∃ h2, h2 ∈ change.oldScenarioHashes.getD [] ∧ e = mkDeletionMarker h2) := by
  rw [payload_scenarios_getD] at he
  rcases List.mem_append.mp he with hbase | hmark
  · cases hs : change.scenarios with
    | none =>
      rw [show mappedScenarios resolved change = none by simp [mappedScenarios, hs]] at hbase
      cases hbase
    | some newScens =>
      rw [show mappedScenarios resolved change
          = some (mapWithIndex
              (buildPayloadScenario resolved change (sameLengthAsOld change newScens.length))
              0 newScens) by simp [mappedScenarios, hs]] at hbase
      simp only [Option.getD_some] at hbase
      rcases mem_mapWithIndex _ 0 newScens e hbase with ⟨i, s, hsmem, hb⟩
      exact Or.inl ⟨i, s, newScens, rfl, hsmem, hb⟩
  · exact Or.inr (mem_deletionMarkers resolved change e hmark)

/-- Claim C4 (amended).  Among the entries emitted for scenarios present
in the new document the steps field is omitted exactly for a pure `R100`
rename and otherwise carries the full step list of the scenario; deletion
markers never carry steps, whatever the status. -/
theorem steps_included_iff_not_r100
    (resolved : ResolvedIds) (change : ProcessedChange) (e : PayloadScenario)
    (he : e ∈ (buildPayloadChange resolved change).scenarios.getD []) :
    (e.deleted = true → e.steps = none) ∧
    (e.deleted = false →
      ((e.steps = none ↔ change.status = "R100") ∧
       ∃ s ∈ change.scenarios.getD [], e.hash = some s.hash ∧ e.title = some s.title ∧
         (change.status ≠ "R100" → e.steps = some s.steps))) := by
  rcases mem_payload_scenarios_cases resolved change e he with
    ⟨i, s, newScens, hs, hsmem, he2⟩ | ⟨h2, hh2, he2⟩
  · subst he2
    constructor
    · intro hdel
      exact absurd hdel (by simp [buildPayloadScenario])
    · intro _
      constructor
      · show (if change.status ≠ "R100" then some s.steps else none) = none
          ↔ change.status = "R100"
        by_cases hst : change.status = "R100"
        · simp [hst]
        · simp [hst]
      · refine ⟨s, ?_, rfl, rfl, ?_⟩
        · rw [hs]
          simpa using hsmem
        · intro hne2
          show (if change.status ≠ "R100" then some s.steps else none) = some s.steps
          rw [if_pos hne2]
  · subst he2
    exact ⟨fun _ => rfl, fun hdel => absurd hdel (by simp [mkDeletionMarker])⟩

/-- Modified change whose only effect is one disappeared old scenario. -/
def markedChange : ProcessedChange :=
  { status := "M", oldPath := none, newPath := some "f.feature"
    oldScenarioHashes := some ["h0"]
    oldScenarios := some [⟨"h0", "Gone", ["Given g"]⟩]
    scenarios := some [] }

/-- Claim C4, counterexample to the unamended claim: on a Modified change
(status not `R100`) the emitted deletion marker carries no steps field, so
steps are not included in "every other case". -/
theorem deletion_marker_without_steps_on_modified :
    (buildPayloadChange emptyResolved markedChange).scenarios
        = some [{ prevHash := some "h0", deleted := true }] ∧
    markedChange.status ≠ "R100" ∧
    (∀ e ∈ (buildPayloadChange emptyResolved markedChange).scenarios.getD [],
        e.steps = none) := by
  refine ⟨by decide, by decide, by decide⟩

/-- First mapped entry of the matcher example payload. -/
def sampleEntry : PayloadScenario :=
  { hash := some "h1", title := some "AlphaRenamed", prevHash := some "h1"
    caseId := none, steps := some ["Given a"], deleted := false }

/-- Claim C4, witness: the amended theorem applied to a concrete mapped
entry of a Modified change. -/
theorem steps_included_iff_not_r100_witness :
    (sampleEntry.steps = none ↔ matcherChange.status = "R100") :=
  ((steps_included_iff_not_r100 emptyResolved matcherChange sampleEntry (by decide)).2 rfl).1

/-- Claim C10.  Every emitted scenario entry either is a new-document
entry carrying both hash and title, or is a deletion marker consisting of
exactly a prevHash and the deleted flag (no hash, title, steps or
caseId); and a caseId is attached only to an entry that also carries a
truthy prevHash. -/
theorem payload_scenario_entry_shape
    (resolved : ResolvedIds) (change : ProcessedChange) (e : PayloadScenario)
    (he : e ∈ (buildPayloadChange resolved change).scenarios.getD []) :
    ((e.deleted = false ∧ e.hash.isSome = true ∧ e.title.isSome = true) ∨
     (e.deleted = true ∧ e.hash = none ∧ e.title = none ∧ e.steps = none ∧
       e.caseId = none ∧ e.prevHash.isSome = true)) ∧
    (e.caseId.isSome = true → ∃ p, e.prevHash = some p ∧ p ≠ "") := by
  rcases mem_payload_scenarios_cases resolved change e he with
    ⟨i, s, newScens, hs, hsmem, he2⟩ | ⟨h2, hh2, he2⟩
  · subst he2
    refine ⟨Or.inl ⟨rfl, rfl, rfl⟩, ?_⟩
    intro hcase
    show ∃ p, scenarioPrevHash change (sameLengthAsOld change newScens.length) i s = some p
        ∧ p ≠ ""
    have hcase2 : (scenarioCaseId resolved
        (scenarioPrevHash change (sameLengthAsOld change newScens.length) i s)).isSome
          = true := hcase
    unfold scenarioCaseId at hcase2
    by_cases ht : truthyStr
        (scenarioPrevHash change (sameLengthAsOld change newScens.length) i s) = true
    · cases hp : scenarioPrevHash change (sameLengthAsOld change newScens.length) i s with
      | none =>
        rw [hp] at ht
        exact absurd ht (by simp [truthyStr])
      | some p =>
        refine ⟨p, rfl, ?_⟩
        rw [hp] at ht
        simpa [truthyStr] using ht
    · rw [if_neg ht] at hcase2
      simp at hcase2
  · subst he2
    refine ⟨Or.inr ⟨rfl, rfl, rfl, rfl, rfl, rfl⟩, ?_⟩
    intro hcase
    exact absurd hcase (by simp [mkDeletionMarker])

/-- Claim C10, witness: the entry-shape theorem applied to a concrete
mapped entry. -/
theorem payload_scenario_entry_shape_witness :
    (sampleEntry.deleted = false ∧ sampleEntry.hash.isSome = true
        ∧ sampleEntry.title.isSome = true) ∨
    (sampleEntry.deleted = true ∧ sampleEntry.hash = none ∧ sampleEntry.title = none
        ∧ sampleEntry.steps = none ∧ sampleEntry.caseId = none
        ∧ sampleEntry.prevHash.isSome = true) :=
  (payload_scenario_entry_shape emptyResolved matcherChange sampleEntry (by decide)).1

/-- Mapped entries are never deletion markers. -/
theorem mapped_not_deleted (resolved : ResolvedIds) (change : ProcessedChange)
    (e : PayloadScenario) (he : e ∈ (mappedScenarios resolved change).getD []) :
    e.deleted = false := by
  cases hs : change.scenarios with
  | none =>
    rw [show mappedScenarios resolved change = none by simp [mappedScenarios, hs]] at he
    cases he
  | some newScens =>
    rw [show mappedScenarios resolved change
        = some (mapWithIndex
            (buildPayloadScenario resolved change (sameLengthAsOld change newScens.length))
            0 newScens) by simp [mappedScenarios, hs]] at he
    simp only [Option.getD_some] at he
    rcases mem_mapWithIndex _ 0 newScens e he with ⟨i, s, _, he2⟩
    subst he2
    rfl

/-- A non-empty hash is in one of the claimed sets exactly when some
non-deleted entry of the emitted list claims it as its hash or prevHash. -/
theorem claimed_iff (resolved : ResolvedIds) (change : ProcessedChange)
    (h : String) (hne : h ≠ "") :
    (h ∈ claimedNewHashes resolved change ∨ h ∈ claimedPrevHashes resolved change)
      ↔ ∃ e ∈ (buildPayloadChange resolved change).scenarios.getD [],
          e.deleted = false ∧ (e.hash = some h ∨ e.prevHash = some h) := by
  constructor
  · rintro (hn | hp)
    · have hn2 := List.mem_of_mem_filter hn
      rcases List.mem_filterMap.mp hn2 with ⟨e, he, hh⟩
      refine ⟨e, ?_, mapped_not_deleted resolved change e he, Or.inl hh⟩
      rw [payload_scenarios_getD]
      exact List.mem_append_left _ he
    · have hp2 := List.mem_of_mem_filter hp
      rcases List.mem_filterMap.mp hp2 with ⟨e, he, hh⟩
      refine ⟨e, ?_, mapped_not_deleted resolved change e he, Or.inr hh⟩
      rw [payload_scenarios_getD]
      exact List.mem_append_left _ he
  · rintro ⟨e, he, hdel, hcase⟩
    rw [payload_scenarios_getD] at he
    rcases List.mem_append.mp he with hbase | hmark
    · rcases hcase with hh | hph
      · exact Or.inl (List.mem_filter.mpr
          ⟨List.mem_filterMap.mpr ⟨e, hbase, hh⟩, by simp [hne]⟩)
      · exact Or.inr (List.mem_filter.mpr
          ⟨List.mem_filterMap.mpr ⟨e, hbase, hph⟩, by simp [hne]⟩)
    · rcases mem_deletionMarkers resolved change e hmark with ⟨h2, _, he2⟩
      subst he2
      simp [mkDeletionMarker] at hdel

/-- Claim C3 (amended).  For a non-Addition change with duplicate-free old
scenario hashes, an old hash claimed by some non-deleted entry gets no
deletion marker, and an unclaimed old hash gets exactly one deletion
marker; a pure Addition gets no deletion markers at all.  (Without the
duplicate-free hypothesis one marker is pushed per occurrence, see
`duplicate_old_hash_two_markers`.) -/
theorem deletion_marker_per_unclaimed_hash
    (resolved : ResolvedIds) (change : ProcessedChange) (ohs : List String)
    (hoh : change.oldScenarioHashes = some ohs)
    (hnd : ohs.Nodup)
    (hne : ∀ x ∈ ohs, x ≠ "")
    (h : String) (hmem : h ∈ ohs) :
    (change.status ≠ "A" →
      ((∃ e ∈ (buildPayloadChange resolved change).scenarios.getD [],
          e.deleted = false ∧ (e.hash = some h ∨ e.prevHash = some h)) →
        (((buildPayloadChange resolved change).scenarios.getD []).filter
            (fun e => e.deleted && decide (e.prevHash = some h))).length = 0) ∧
      ((¬ ∃ e ∈ (buildPayloadChange resolved change).scenarios.getD [],
          e.deleted = false ∧ (e.hash = some h ∨ e.prevHash = some h)) →
        (((buildPayloadChange resolved change).scenarios.getD []).filter
            (fun e => e.deleted && decide (e.prevHash = some h))).length = 1)) ∧
    (change.status = "A" →
      ∀ e ∈ (buildPayloadChange resolved change).scenarios.getD [], e.deleted = false) := by
  have hneh : h ≠ "" := hne h hmem
  constructor
  · intro hstatus
    have hlenpos : 0 < ohs.length := List.length_pos.mpr (List.ne_nil_of_mem hmem)
    have hdo : doDeletionPass change = true := by
      simp [doDeletionPass, hoh, hstatus, hlenpos]
    have hmarkers : deletionMarkers resolved change
        = (ohs.filter (fun oldHash =>
            decide (oldHash ∉ claimedNewHashes resolved change
              ∧ oldHash ∉ claimedPrevHashes resolved change))).map mkDeletionMarker := by
      simp only [deletionMarkers, hdo, if_true, hoh, Option.getD_some]
    have hbase0 : (((mappedScenarios resolved change).getD []).filter
        (fun e => e.deleted && decide (e.prevHash = some h))).length = 0 := by
      rw [List.length_eq_zero]
      refine List.filter_eq_nil_iff.mpr ?_
      intro e he hp
      rw [mapped_not_deleted resolved change e he] at hp
      simp at hp
    have hsplit : (((buildPayloadChange resolved change).scenarios.getD []).filter
        (fun e => e.deleted && decide (e.prevHash = some h))).length
        = ((deletionMarkers resolved change).filter
            (fun e => e.deleted && decide (e.prevHash = some h))).length := by
      rw [payload_scenarios_getD, List.filter_append, List.length_append, hbase0,
        Nat.zero_add]
    have hcount : ((deletionMarkers resolved change).filter
        (fun e => e.deleted && decide (e.prevHash = some h))).length
        = ((ohs.filter (fun oldHash =>
            decide (oldHash ∉ claimedNewHashes resolved change
              ∧ oldHash ∉ claimedPrevHashes resolved change))).filter
            (fun x => decide (x = h))).length := by
      rw [hmarkers, List.filter_map]
      rw [List.length_map]
      congr 1
      refine List.filter_congr ?_
      intro x _
      simp [mkDeletionMarker, Function.comp]
    constructor
    · intro hclaimed
      rw [hsplit, hcount, List.length_eq_zero]
      refine List.filter_eq_nil_iff.mpr ?_
      intro x hx hdx
      have hxh : x = h := of_decide_eq_true hdx
      subst hxh
      have hq := (List.mem_filter.mp hx).2
      have hq2 := of_decide_eq_true hq
      rcases (claimed_iff resolved change x hneh).mpr hclaimed with hcn | hcp
      · exact hq2.1 hcn
      · exact hq2.2 hcp
    · intro hunclaimed
      have hnotin : ¬(h ∈ claimedNewHashes resolved change
          ∨ h ∈ claimedPrevHashes resolved change) := fun hc =>
        hunclaimed ((claimed_iff resolved change h hneh).mp hc)
      have hq : decide (h ∉ claimedNewHashes resolved change
          ∧ h ∉ claimedPrevHashes resolved change) = true := by
        refine decide_eq_true ?_
        exact ⟨fun a => hnotin (Or.inl a), fun a => hnotin (Or.inr a)⟩
      have hmemf : h ∈ ohs.filter (fun oldHash =>
          decide (oldHash ∉ claimedNewHashes resolved change
            ∧ oldHash ∉ claimedPrevHashes resolved change)) :=
        List.mem_filter.mpr ⟨hmem, hq⟩
      have hndf : (ohs.filter (fun oldHash =>
          decide (oldHash ∉ claimedNewHashes resolved change
            ∧ oldHash ∉ claimedPrevHashes resolved change))).Nodup :=
        List.Nodup.filter _ hnd
      rw [hsplit, hcount, filter_eq_singleton_of_nodup _ h hndf hmemf]
      rfl
  · intro hstatusA e he
    have hdo : doDeletionPass change = false := by
      simp [doDeletionPass, hstatusA]
    have hmarkers : deletionMarkers resolved change = [] := by
      simp [deletionMarkers, hdo]
    rw [payload_scenarios_getD, hmarkers, List.append_nil] at he
    exact mapped_not_deleted resolved change e he

/-- Modified change whose old file contained two scenarios with identical
steps — identical step text at the same path gives identical hashes, so
the old hash list has a duplicate. -/
def dupChange : ProcessedChange :=
  { status := "M", oldPath := none, newPath := some "f.feature"
    oldScenarioHashes := some ["h", "h"]
    oldScenarios := some [⟨"h", "First", ["Given g"]⟩, ⟨"h", "Second", ["Given g"]⟩]
    scenarios := some [] }

/-- Claim C3, counterexample to the unamended claim: a duplicated
unclaimed old hash is emitted as two deletion markers, not exactly one. -/
theorem duplicate_old_hash_two_markers :
    (((buildPayloadChange emptyResolved dupChange).scenarios.getD []).filter
        (fun e => e.deleted && decide (e.prevHash = some "h"))).length = 2 ∧
    (¬ ∃ e ∈ (buildPayloadChange emptyResolved dupChange).scenarios.getD [],
        e.deleted = false ∧ (e.hash = some "h" ∨ e.prevHash = some "h")) ∧
    (2 : Nat) ≠ 1 := by
  refine ⟨by decide, by decide, by decide⟩

/-- Claim C3, witness: the amended theorem applied to a concrete Modified
change with one disappeared scenario yields exactly one marker. -/
theorem deletion_marker_per_unclaimed_hash_witness :
    (((buildPayloadChange emptyResolved markedChange).scenarios.getD []).filter
        (fun e => e.deleted && decide (e.prevHash = some "h0"))).length = 1 :=
  ((deletion_marker_per_unclaimed_hash emptyResolved markedChange ["h0"] rfl (by decide)
      (by decide) "h0" (by decide)).1 (by decide)).2 (by decide)

/-- Claim C8, witness: the initial-sync theorem applied to a concrete file
listing and two different fetch functions. -/
theorem initial_sync_short_circuits_witness :
    collectOldHashes (processAll envSteps none
        (initialSyncChanges "features/a.feature\nnotes.txt"))
      = { features := [], scenarios := [] } :=
  (initial_sync_short_circuits "features/a.feature\nnotes.txt" envSteps
      (fun _ _ _ => .ok ⟨none⟩) (fun _ _ _ => .error "service unreachable") 7).2.1
